import Mathlib

/-
Verification of the rustlife Game of Life engine (src/src/main.rs) against its
design specification. The Rust source is shallowly embedded: `i32` coordinates
become `Int`, `u64`/`u32` counters become `Nat`, `HashSet<Cell>` becomes a
`List Cell` whose no-duplicate-points invariant is carried as an explicit
hypothesis where needed, and the in-place mutation of the Rust loops becomes
explicit state-passing folds. `f64` arithmetic in `show_histo` is modelled by
exact rational arithmetic.
-/

set_option autoImplicit false

namespace Rustlife

/-- Grid coordinate, `struct Point { x: i32, y: i32 }` (main.rs:21-31).
The spec declares the coordinate space to be unbounded signed integers,
so `i32` is modelled as `Int`. -/
structure Point where
  x : Int
  y : Int
deriving DecidableEq

/-- A live cell, `struct Cell { point: Point, age: u64 }` (main.rs:33-58). -/
structure Cell where
  point : Point
  age : Nat
deriving DecidableEq

/-- Rust `impl PartialEq for Cell` (main.rs:39-43): two cells compare equal
exactly when their points are equal; `age` is ignored. -/
def cellEq (a b : Cell) : Bool := a.point = b.point

/-- Rust `impl Hash for Cell` (main.rs:45-49): the hash of a cell is the hash
of its point, for an arbitrary point-hashing function `h`; `age` never enters
the hash state. -/
def cellHash (h : Point → Nat) (c : Cell) : Nat := h c.point

/-- `struct Generation` (main.rs:60-65). `cells: HashSet<Cell>` is modelled as
a list of cells; the Rust `HashSet` invariant (at most one stored cell per
point, since `Cell` equality is point-only) is the predicate `NodupPoints`
below, carried as a hypothesis where a claim needs it. The `age` field is the
tick counter of the spec. -/
structure Generation where
  cells : List Cell
  age : Nat
  births : Nat
  deaths : Nat
deriving DecidableEq

/-- The `HashSet<Cell>` representation invariant: no two stored cells share a
point. -/
def NodupPoints (cells : List Cell) : Prop := (cells.map Cell.point).Nodup

instance decNodupPoints (cells : List Cell) : Decidable (NodupPoints cells) :=
  inferInstanceAs (Decidable (cells.map Cell.point).Nodup)

/-- `HashSet<Cell>::contains(&probe)` under the point-only equality of
`cellEq`: is some stored cell equal (by point) to the probe? -/
def hsContains (cells : List Cell) (probe : Cell) : Bool :=
  cells.any (fun c => cellEq c probe)

/-- Membership test used by `check_neighbor` (main.rs:319, `gen.contains`):
the probe cell is always built with age 0 (main.rs:286). -/
def containsPoint (cells : List Cell) (p : Point) : Bool :=
  hsContains cells ⟨p, 0⟩

/-- `HashSet<Cell>::get(&probe)` (main.rs:247): the stored cell equal (by
point) to the probe, if any. -/
def hsGet (cells : List Cell) (probe : Cell) : Option Cell :=
  cells.find? (fun c => cellEq c probe)

/-- The 8 Moore neighbors of a point, in the exact order `count_neighbors`
(main.rs:279-311) visits them by mutating `nb`. -/
def mooreNeighbors (p : Point) : List Point :=
  [⟨p.x - 1, p.y - 1⟩, ⟨p.x, p.y - 1⟩, ⟨p.x + 1, p.y - 1⟩,
   ⟨p.x + 1, p.y⟩, ⟨p.x - 1, p.y⟩,
   ⟨p.x - 1, p.y + 1⟩, ⟨p.x, p.y + 1⟩, ⟨p.x + 1, p.y + 1⟩]

/-- Membership test on a list of points (the empty-neighbor `HashSet<Cell>`
holds only age-0 cells, so it is represented by its list of points). -/
def pmem (ps : List Point) (p : Point) : Bool := ps.any (fun q => q = p)

/-- `HashSet` insertion (main.rs:323, `empty_neighbors.insert(cell)`): a point
already present is not added again. -/
def insertPoint (ps : List Point) (p : Point) : List Point :=
  if pmem ps p then ps else ps ++ [p]

/-- `check_neighbor` (main.rs:313-327). The state `st` is the running
`(count, empty_neighbors)` pair; `collect` models whether the
`optional_empty_neighbors` collector is `Some` or `None`. A live neighbor
increments the count; a dead one is inserted into the collector when present. -/
def check_neighbor (cells : List Cell) (collect : Bool) (st : Nat × List Point)
    (nb : Point) : Nat × List Point :=
  if containsPoint cells nb then (st.1 + 1, st.2)
  else (st.1, if collect then insertPoint st.2 nb else st.2)

/-- `count_neighbors` (main.rs:279-311): fold `check_neighbor` over the 8
Moore neighbors of `p`, threading the count (from 0) and the collected
empty neighbors (from `empties`). -/
def count_neighbors (p : Point) (cells : List Cell) (collect : Bool)
    (empties : List Point) : Nat × List Point :=
  (mooreNeighbors p).foldl (check_neighbor cells collect) (0, empties)

/-- The live-neighbor count of a point, as the birth loop computes it
(main.rs:188, `count_neighbors(*cell, &gen.cells, &mut None)` with the
collector absent). -/
def neighbor_count (p : Point) (cells : List Cell) : Nat :=
  (count_neighbors p cells false []).1

/-- One iteration of the survival loop of `life` (main.rs:177-184). The state
`st` is `(next_cells, empty_neighbors, deaths)`; the loop body counts the
cell's live neighbors while collecting its dead neighbors, then either keeps
the cell with age + 1 or counts a death. -/
def life_step1 (cells : List Cell) (st : List Cell × List Point × Nat)
    (cell : Cell) : List Cell × List Point × Nat :=
  let r := count_neighbors cell.point cells true st.2.1
  if r.1 = 2 ∨ r.1 = 3 then
    (st.1 ++ [⟨cell.point, cell.age + 1⟩], r.2, st.2.2)
  else
    (st.1, r.2, st.2.2 + 1)

/-- One iteration of the birth loop of `life` (main.rs:187-192). The state is
`(next_cells, births)`; a candidate with exactly 3 live neighbors (counted
with the collector absent) is inserted with age 0. -/
def life_step2 (cells : List Cell) (st : List Cell × Nat) (p : Point) :
    List Cell × Nat :=
  if (count_neighbors p cells false []).1 = 3 then
    (st.1 ++ [⟨p, 0⟩], st.2 + 1)
  else st

/-- `life` (main.rs:173-200). The first fold is the survival loop over
`gen.cells`, the second the birth loop over the collected empty neighbors.
`HashSet::insert` into `next_cells` is modelled by appending: under
`NodupPoints` no duplicate point is ever inserted (survivor points are
distinct points of `gen`, birth points are deduplicated non-live points). -/
def life (g : Generation) : Generation :=
  let pass1 := g.cells.foldl (life_step1 g.cells) ([], [], g.deaths)
  let pass2 := pass1.2.1.foldl (life_step2 g.cells) (pass1.1, g.births)
  { cells := pass2.1, age := g.age + 1, births := pass2.2, deaths := pass1.2.2 }

/-- `HashMap::entry(k).and_modify(|v| *v += 1)` (main.rs:209-211) on an
association list: increment the value at key `k` if the key is present,
otherwise change nothing. -/
def histoUpdate (m : List (Nat × Nat)) (k : Nat) : List (Nat × Nat) :=
  m.map (fun kv => if kv.1 = k then (kv.1, kv.2 + 1) else kv)

/-- `histo` (main.rs:202-215): seed one zero bucket per age `0..=max_age`,
then bump the bucket `min(cell.age, max_age)` for every live cell. -/
def histo (g : Generation) (max_age : Nat) : List (Nat × Nat) :=
  g.cells.foldl (fun m cell => histoUpdate m (min cell.age max_age))
    ((List.range (max_age + 1)).map (fun a => (a, 0)))

/-- The cell glyph of `show` (main.rs:255-259): the decimal representation of
the age below 10, the overflow glyph `"+"` otherwise. -/
def glyphOfAge (age : Nat) : String := if age < 10 then toString age else "+"

/-- One screen position of `show` (main.rs:245-262): look up the simulation
point `(sx - offset.x, sy - offset.y)` with an age-0 probe cell and draw the
stored cell's glyph when the lookup succeeds. -/
def show_cell_at (g : Generation) (offset : Point) (sx sy : Nat) : Option String :=
  match hsGet g.cells ⟨⟨(sx : Int) - offset.x, (sy : Int) - offset.y⟩, 0⟩ with
  | some cell => some (glyphOfAge cell.age)
  | none => none

/-- `histo.values().max().unwrap_or(&1)` (main.rs:222): the largest bucket
count, defaulting to 1 only when the histogram has no entries at all. -/
def show_histo_max_count (h : List (Nat × Nat)) : Nat :=
  ((h.map Prod.snd).max?).getD 1

/-- The bar length of one `show_histo` row (main.rs:225-226):
`scale_factor = min(1.0, 25.0 / max_count)` and
`repeat = (count * scale_factor) as usize`. The `f64` arithmetic is modelled
by exact rationals; the `as usize` cast of a nonnegative value truncates
toward zero, i.e. takes the floor. -/
def show_histo_bar_len (count max_count : Nat) : Nat :=
  Nat.floor ((count : ℚ) * min 1 (25 / (max_count : ℚ)))

/-- `show_histo` (main.rs:217-240), restricted to its drawn data: every
histogram entry `(age, count)` becomes a row `(age, count, bar length)`. -/
def show_histo_bars (h : List (Nat × Nat)) : List (Nat × Nat × Nat) :=
  h.map (fun kv => (kv.1, kv.2, show_histo_bar_len kv.2 (show_histo_max_count h)))

/-- Modelled from the claim's words (C8): bar length
`round(count * min(1, 25 / max_bucket_count))` with `max_bucket_count`
clamped to a minimum of 1. Stated for comparison against
`show_histo_bar_len`, the translation of the code. -/
def claimed_bar_len (count max_count : Nat) : Nat :=
  (round ((count : ℚ) * min 1 (25 / ((max max_count 1 : Nat) : ℚ)))).toNat

/-- Mouse buttons of the input event vocabulary (crossterm `MouseButton`). -/
inductive MouseButton where
  | left
  | right
  | middle
deriving DecidableEq

/-- Input events consumed by the loop of `main` (main.rs:96-139): character
key presses, the three mouse events with button and `u16` position, and a
catch-all for every other event, which the loop ignores. -/
inductive InputEvent where
  | key (c : Char)
  | mouseDown (b : MouseButton) (x y : Nat)
  | mouseUp (b : MouseButton) (x y : Nat)
  | mouseDrag (b : MouseButton) (x y : Nat)
  | otherEvent
deriving DecidableEq

/-- The mutable session state of the loop in `main` (main.rs:76-83): the held
generation, the histogram/auto-advance/quit flags, the optional drag anchor,
the viewport offset and the advance-next-frame flag. -/
structure Session where
  gen : Generation
  show_histo_enabled : Bool
  auto_next : Bool
  quit : Bool
  drag_anchor : Option Point
  offset : Point
  next : Bool
deriving DecidableEq

/-- The event dispatch `match` of `main` (main.rs:96-139). `none` models a
panic: the drag arm calls `drag_anchor.unwrap()` (main.rs:130-131), which
panics when no anchor is set. Every other arm returns the updated state. -/
def handle_event (s : Session) (e : InputEvent) : Option Session :=
  match e with
  | .key c =>
      if c = 's' then some { s with next := true }
      else if c = ' ' then
        some { s with auto_next := !s.auto_next, next := !s.auto_next }
      else if c = 'h' then
        some { s with show_histo_enabled := !s.show_histo_enabled }
      else if c = 'q' then some { s with quit := true }
      else some s
  | .mouseDown b x y =>
      if b = .left then some { s with drag_anchor := some ⟨(x : Int), (y : Int)⟩ }
      else some s
  | .mouseUp b _ _ =>
      if b = .left then some { s with drag_anchor := none } else some s
  | .mouseDrag b x y =>
      if b = .left then
        match s.drag_anchor with
        | some anchor =>
            some { s with
              offset := ⟨s.offset.x + ((x : Int) - anchor.x),
                         s.offset.y + ((y : Int) - anchor.y)⟩,
              drag_anchor := some ⟨(x : Int), (y : Int)⟩ }
        | none => none
      else some s
  | .otherEvent => some s

/-- A point has a live cell in a generation. -/
def PtAlive (g : Generation) (p : Point) : Prop := ∃ c ∈ g.cells, c.point = p

/-- Survival test of the first loop of `life` (main.rs:179): the point's
live-neighbor count is 2 or 3. -/
def survives (cells : List Cell) (p : Point) : Bool :=
  neighbor_count p cells == 2 || neighbor_count p cells == 3

/-- The dead Moore neighbors of a point (what `check_neighbor` inserts into
the collector while counting around `p`). -/
def emptyNbrs (p : Point) (cells : List Cell) : List Point :=
  (mooreNeighbors p).filter (fun q => !containsPoint cells q)

/-- The deduplicated birth-candidate set built by the survival loop of `life`:
all dead Moore neighbors of live cells, first-insertion order. -/
def collect_empty (cells : List Cell) : List Point :=
  cells.foldl (fun acc c => (emptyNbrs c.point cells).foldl insertPoint acc) []

/-- Surviving cells of one `life` step, in iteration order: the cells whose
neighbor count is 2 or 3, each carried over with its age incremented. -/
def survivorCells (cells : List Cell) : List Cell :=
  (cells.filter (fun c => survives cells c.point)).map
    (fun c => ⟨c.point, c.age + 1⟩)

/-- Birth points of one `life` step: the candidates with exactly 3 live
neighbors. -/
def bornPoints (cells : List Cell) : List Point :=
  (collect_empty cells).filter (fun p => neighbor_count p cells == 3)

/-- Point-list version of `pmem` over cells. -/
def cellsPts (g : Generation) : List Point := g.cells.map Cell.point

/-- Point translation, used to move a pattern across the unbounded grid. -/
def ptr (v p : Point) : Point := ⟨p.x + v.x, p.y + v.y⟩

/-- Live-neighbor count over a plain point list. -/
def cntPts (ps : List Point) (p : Point) : Nat :=
  (mooreNeighbors p).countP (fun q => pmem ps q)

/-- Birth-candidate collection over a plain point list. -/
def collectPts (ps : List Point) : List Point :=
  ps.foldl
    (fun acc p =>
      ((mooreNeighbors p).filter (fun q => !pmem ps q)).foldl insertPoint acc)
    []

/-- The set of live points after one `life` step, as a function of the set of
live points alone (ages and counters do not influence which points live). -/
def nextPts (ps : List Point) : List Point :=
  (ps.filter (fun p => cntPts ps p == 2 || cntPts ps p == 3)) ++
    ((collectPts ps).filter (fun p => cntPts ps p == 3))

/-- A 2-by-2 block (a still life), used as a concrete witness input. -/
def blockGen : Generation :=
  ⟨[⟨⟨0, 0⟩, 5⟩, ⟨⟨1, 0⟩, 0⟩, ⟨⟨0, 1⟩, 0⟩, ⟨⟨1, 1⟩, 0⟩], 3, 2, 1⟩

/-- An L-tromino, which gives birth to a cell at `(1,1)`, used as a concrete
witness input. -/
def tromGen : Generation := ⟨[⟨⟨0, 0⟩, 1⟩, ⟨⟨1, 0⟩, 0⟩, ⟨⟨0, 1⟩, 0⟩], 0, 0, 0⟩

/-- Three collinear but non-adjacent live cells: a counterexample input for
the literal reading of the oscillator claim. -/
def spreadGen : Generation := ⟨[⟨⟨0, 0⟩, 0⟩, ⟨⟨2, 0⟩, 0⟩, ⟨⟨4, 0⟩, 0⟩], 0, 0, 0⟩

/-- A horizontal blinker with arbitrary-looking ages and counters, used as a
concrete witness input. -/
def blinkGen : Generation :=
  ⟨[⟨⟨-1, 0⟩, 4⟩, ⟨⟨0, 0⟩, 7⟩, ⟨⟨1, 0⟩, 9⟩], 3, 2, 1⟩

/-- A session with a drag anchor set, used as a concrete witness input. -/
def dragSession : Session :=
  ⟨blockGen, false, false, false, some ⟨1, 2⟩, ⟨0, 0⟩, false⟩

/-- A session with no drag anchor, used as a concrete witness input. -/
def noAnchorSession : Session :=
  ⟨blockGen, false, false, false, none, ⟨0, 0⟩, false⟩

theorem containsPoint_iff (cells : List Cell) (p : Point) :
    containsPoint cells p = true ↔ ∃ c ∈ cells, c.point = p := by
  simp [containsPoint, hsContains, cellEq, List.any_eq_true]

theorem pmem_iff (ps : List Point) (p : Point) : pmem ps p = true ↔ p ∈ ps := by
  simp [pmem, List.any_eq_true]

theorem foldl_check_neighbor (cells : List Cell) (collect : Bool)
    (l : List Point) :
    ∀ (n : Nat) (e : List Point),
      l.foldl (check_neighbor cells collect) (n, e) =
        (n + l.countP (fun q => containsPoint cells q),
         if collect then
           (l.filter (fun q => !containsPoint cells q)).foldl insertPoint e
         else e) := by
  induction l with
  | nil => intro n e; simp
  | cons q l ih =>
      intro n e
      by_cases hq : containsPoint cells q = true
      · simp [check_neighbor, hq, ih, List.countP_cons, Nat.add_assoc,
          Nat.add_comm]
      · simp only [List.foldl_cons, check_neighbor, hq, if_false,
          Bool.false_eq_true, List.countP_cons, List.filter_cons]
        cases collect with
        | false => simp [ih, hq]
        | true => simp [ih, hq]

theorem neighbor_count_eq_countP (p : Point) (cells : List Cell) :
    neighbor_count p cells =
      (mooreNeighbors p).countP (fun q => containsPoint cells q) := by
  unfold neighbor_count count_neighbors
  rw [foldl_check_neighbor]
  simp

theorem count_neighbors_eq (p : Point) (cells : List Cell) (collect : Bool)
    (e : List Point) :
    count_neighbors p cells collect e =
      (neighbor_count p cells,
       if collect then (emptyNbrs p cells).foldl insertPoint e else e) := by
  rw [neighbor_count_eq_countP]
  unfold count_neighbors emptyNbrs
  rw [foldl_check_neighbor]
  simp

theorem life_step1_eq (cells : List Cell) (st : List Cell × List Point × Nat)
    (c : Cell) :
    life_step1 cells st c =
      ((if survives cells c.point then st.1 ++ [⟨c.point, c.age + 1⟩] else st.1),
       (emptyNbrs c.point cells).foldl insertPoint st.2.1,
       (if survives cells c.point then st.2.2 else st.2.2 + 1)) := by
  unfold life_step1
  rw [count_neighbors_eq]
  by_cases hc : neighbor_count c.point cells = 2 ∨ neighbor_count c.point cells = 3
  · have hs : survives cells c.point = true := by simp [survives, hc]
    simp [hc, hs]
  · have hs : survives cells c.point = false := by
      simp [survives]
      omega
    simp [hc, hs]

theorem life_step2_eq (cells : List Cell) (st : List Cell × Nat) (p : Point) :
    life_step2 cells st p =
      (if neighbor_count p cells = 3 then (st.1 ++ [⟨p, 0⟩], st.2 + 1) else st) := by
  unfold life_step2 neighbor_count
  rfl

theorem life_pass1 (cells : List Cell) (l : List Cell) :
    ∀ (aC : List Cell) (aE : List Point) (aD : Nat),
      l.foldl (life_step1 cells) (aC, aE, aD) =
      (aC ++ (l.filter (fun c => survives cells c.point)).map
          (fun c => ⟨c.point, c.age + 1⟩),
       l.foldl (fun acc c => (emptyNbrs c.point cells).foldl insertPoint acc) aE,
       aD + l.countP (fun c => !survives cells c.point)) := by
  induction l with
  | nil => intro aC aE aD; simp
  | cons c l ih =>
      intro aC aE aD
      rw [List.foldl_cons, life_step1_eq]
      by_cases hs : survives cells c.point = true
      · rw [if_pos hs, if_pos hs, ih]
        simp [List.filter_cons, hs, List.countP_cons, List.append_assoc]
      · have hs2 : survives cells c.point = false := by
          simpa using hs
        rw [hs2]
        simp only [if_false, Bool.false_eq_true]
        rw [ih]
        simp [List.filter_cons, hs2, List.countP_cons, Nat.add_assoc,
          Nat.add_comm]

theorem life_pass2 (cells : List Cell) (l : List Point) :
    ∀ (aC : List Cell) (aB : Nat),
      l.foldl (life_step2 cells) (aC, aB) =
      (aC ++ (l.filter (fun p => neighbor_count p cells == 3)).map
          (fun p => ⟨p, 0⟩),
       aB + (l.filter (fun p => neighbor_count p cells == 3)).length) := by
  induction l with
  | nil => intro aC aB; simp
  | cons p l ih =>
      intro aC aB
      rw [List.foldl_cons, life_step2_eq]
      by_cases hp : neighbor_count p cells = 3
      · rw [if_pos hp, ih]
        simp [List.filter_cons, hp, List.append_assoc, Nat.add_assoc,
          Nat.add_comm]
      · rw [if_neg hp, ih]
        simp [List.filter_cons, hp]

theorem life_eq (g : Generation) :
    life g =
      { cells := survivorCells g.cells ++ (bornPoints g.cells).map (fun p => ⟨p, 0⟩),
        age := g.age + 1,
        births := g.births + (bornPoints g.cells).length,
        deaths := g.deaths + g.cells.countP (fun c => !survives g.cells c.point) } := by
  show ({ cells := _, age := _, births := _, deaths := _ } : Generation) = _
  rw [life_pass1 g.cells g.cells [] [] g.deaths]
  rw [life_pass2 g.cells _ _ g.births]
  simp [survivorCells, bornPoints, collect_empty]

theorem mem_insertPoint (ps : List Point) (p q : Point) :
    q ∈ insertPoint ps p ↔ q ∈ ps ∨ q = p := by
  unfold insertPoint
  by_cases h : pmem ps p = true
  · rw [if_pos h]
    constructor
    · exact Or.inl
    · rintro (hq | rfl)
      · exact hq
      · exact (pmem_iff ps q).mp h
  · rw [if_neg h]
    simp

theorem nodup_insertPoint (ps : List Point) (p : Point) (h : ps.Nodup) :
    (insertPoint ps p).Nodup := by
  unfold insertPoint
  by_cases hp : pmem ps p = true
  · rwa [if_pos hp]
  · rw [if_neg hp]
    have : p ∉ ps := fun hm => hp ((pmem_iff ps p).mpr hm)
    simp [List.nodup_append, h, this]

theorem mem_foldl_insertPoint (l : List Point) :
    ∀ (acc : List Point) (q : Point),
      q ∈ l.foldl insertPoint acc ↔ q ∈ acc ∨ q ∈ l := by
  induction l with
  | nil => intro acc q; simp
  | cons p l ih =>
      intro acc q
      rw [List.foldl_cons, ih, mem_insertPoint]
      simp [or_assoc]

theorem nodup_foldl_insertPoint (l : List Point) :
    ∀ (acc : List Point), acc.Nodup → (l.foldl insertPoint acc).Nodup := by
  induction l with
  | nil => intro acc h; simpa
  | cons p l ih =>
      intro acc h
      exact ih _ (nodup_insertPoint acc p h)

theorem mem_collect_empty (cells : List Cell) (p : Point) :
    p ∈ collect_empty cells ↔
      (containsPoint cells p = false ∧ ∃ c ∈ cells, p ∈ mooreNeighbors c.point) := by
  have main : ∀ (l : List Cell) (acc : List Point),
      p ∈ l.foldl (fun acc c => (emptyNbrs c.point cells).foldl insertPoint acc) acc ↔
        p ∈ acc ∨ ∃ c ∈ l, p ∈ emptyNbrs c.point cells := by
    intro l
    induction l with
    | nil => intro acc; simp
    | cons c l ih =>
        intro acc
        rw [List.foldl_cons, ih, mem_foldl_insertPoint]
        simp
        tauto
  unfold collect_empty
  rw [main]
  simp only [List.not_mem_nil, false_or]
  unfold emptyNbrs
  constructor
  · rintro ⟨c, hc, hm⟩
    rw [List.mem_filter] at hm
    refine ⟨by simpa using hm.2, c, hc, hm.1⟩
  · rintro ⟨hdead, c, hc, hm⟩
    exact ⟨c, hc, List.mem_filter.mpr ⟨hm, by simp [hdead]⟩⟩

theorem nodup_collect_empty (cells : List Cell) : (collect_empty cells).Nodup := by
  have main : ∀ (l : List Cell) (acc : List Point), acc.Nodup →
      (l.foldl (fun acc c => (emptyNbrs c.point cells).foldl insertPoint acc) acc).Nodup := by
    intro l
    induction l with
    | nil => intro acc h; simpa
    | cons c l ih =>
        intro acc h
        exact ih _ (nodup_foldl_insertPoint _ _ h)
  exact main cells [] List.nodup_nil

theorem mem_mooreNeighbors (p q : Point) :
    q ∈ mooreNeighbors p ↔
      (q ≠ p ∧ p.x - 1 ≤ q.x ∧ q.x ≤ p.x + 1 ∧ p.y - 1 ≤ q.y ∧ q.y ≤ p.y + 1) := by
  obtain ⟨px, py⟩ := p
  obtain ⟨qx, qy⟩ := q
  simp [mooreNeighbors, Point.mk.injEq]
  omega

theorem mooreNeighbors_symm (p q : Point) :
    q ∈ mooreNeighbors p ↔ p ∈ mooreNeighbors q := by
  rw [mem_mooreNeighbors, mem_mooreNeighbors]
  constructor <;> (rintro ⟨h1, h2⟩; refine ⟨fun he => h1 he.symm, ?_⟩; omega)

theorem point_inj (cells : List Cell) (hnd : NodupPoints cells) (a b : Cell)
    (ha : a ∈ cells) (hb : b ∈ cells) (hp : a.point = b.point) : a = b :=
  List.inj_on_of_nodup_map hnd ha hb hp

theorem mem_life (g : Generation) (d : Cell) :
    d ∈ (life g).cells ↔
      ((∃ c ∈ g.cells, survives g.cells c.point = true ∧ d = ⟨c.point, c.age + 1⟩) ∨
       (d.age = 0 ∧ containsPoint g.cells d.point = false ∧
        (∃ c ∈ g.cells, d.point ∈ mooreNeighbors c.point) ∧
        neighbor_count d.point g.cells = 3)) := by
  rw [life_eq]
  simp only [List.mem_append, survivorCells, bornPoints, List.mem_map,
    List.mem_filter]
  constructor
  · rintro (⟨c, hc, rfl⟩ | ⟨p, hp, rfl⟩)
    · exact Or.inl ⟨c, hc.1, hc.2, rfl⟩
    · rw [mem_collect_empty] at hp
      refine Or.inr ⟨rfl, hp.1.1, hp.1.2, by simpa using hp.2⟩
  · rintro (⟨c, hc, hs, rfl⟩ | ⟨hage, hdead, hadj, hcount⟩)
    · exact Or.inl ⟨c, ⟨hc, hs⟩, rfl⟩
    · refine Or.inr ⟨d.point, ⟨?_, by simpa using hcount⟩, ?_⟩
      · rw [mem_collect_empty]
        exact ⟨hdead, hadj⟩
      · obtain ⟨dp, da⟩ := d
        simp at hage
        simp [hage]

theorem survivor_points_sub (cells : List Cell) (d : Cell)
    (hd : d ∈ survivorCells cells) : containsPoint cells d.point = true := by
  unfold survivorCells at hd
  simp only [List.mem_map, List.mem_filter] at hd
  obtain ⟨c, hc, rfl⟩ := hd
  rw [containsPoint_iff]
  exact ⟨c, hc.1, rfl⟩

theorem map_point_survivors (cells : List Cell) :
    (survivorCells cells).map Cell.point =
      (cells.filter (fun c => survives cells c.point)).map Cell.point := by
  unfold survivorCells
  rw [List.map_map]
  exact List.map_congr_left (fun c _ => rfl)

theorem map_point_born (cells : List Cell) :
    ((bornPoints cells).map (fun p => (⟨p, 0⟩ : Cell))).map Cell.point =
      bornPoints cells := by
  rw [List.map_map]
  exact (List.map_congr_left (fun p _ => rfl)).trans (List.map_id _)

theorem nodup_points_life (g : Generation) (hnd : NodupPoints g.cells) :
    NodupPoints (life g).cells := by
  rw [life_eq]
  unfold NodupPoints
  rw [List.map_append, List.nodup_append]
  refine ⟨?_, ?_, ?_⟩
  · rw [map_point_survivors]
    exact List.Nodup.sublist ((List.filter_sublist g.cells).map Cell.point) hnd
  · rw [map_point_born]
    exact (nodup_collect_empty g.cells).filter _
  · intro q hq hq2
    rw [map_point_survivors] at hq
    simp only [List.mem_map, List.mem_filter] at hq
    obtain ⟨c, hc, rfl⟩ := hq
    rw [map_point_born] at hq2
    unfold bornPoints at hq2
    rw [List.mem_filter, mem_collect_empty] at hq2
    have hin : containsPoint g.cells c.point = true :=
      (containsPoint_iff _ _).mpr ⟨c, hc.1, rfl⟩
    rw [hq2.1.1] at hin
    exact Bool.false_ne_true hin

theorem contains_life (g : Generation) (hnd : NodupPoints g.cells) (c : Cell)
    (hc : c ∈ g.cells) :
    containsPoint (life g).cells c.point = survives g.cells c.point := by
  by_cases hs : survives g.cells c.point = true
  · rw [hs, containsPoint_iff]
    exact ⟨⟨c.point, c.age + 1⟩, (mem_life g _).mpr (Or.inl ⟨c, hc, hs, rfl⟩), rfl⟩
  · have hs2 : survives g.cells c.point = false := by simpa using hs
    rw [hs2]
    rw [← Bool.not_eq_true, containsPoint_iff]
    push_neg
    intro d hd hdp
    rcases (mem_life g d).mp hd with ⟨c2, hc2, hsurv2, rfl⟩ | ⟨_, hdead, _, _⟩
    · simp only at hdp
      have : c2 = c := point_inj g.cells hnd c2 c hc2 hc hdp
      rw [this] at hsurv2
      exact hs hsurv2
    · have : containsPoint g.cells d.point = true :=
        (containsPoint_iff _ _).mpr ⟨c, hc, hdp.symm⟩
      rw [hdead] at this
      exact Bool.false_ne_true this

/-- C1: a cell `c` live in `g` is carried into `life g` at its point with age
`c.age + 1` exactly when its live-neighbor count is 2 or 3; with any other
count no cell at `c`'s point exists in the next generation (a point live in
`g` cannot be reborn). Neighbor counting ranges over the 8 Moore neighbors,
which are characterized arithmetically with no wraparound and no special
case at any coordinate. -/
theorem C1_survival_rule (g : Generation) (hnd : NodupPoints g.cells)
    (c : Cell) (hc : c ∈ g.cells) :
    ((⟨c.point, c.age + 1⟩ : Cell) ∈ (life g).cells ↔
      (neighbor_count c.point g.cells = 2 ∨ neighbor_count c.point g.cells = 3))
    ∧ (¬(neighbor_count c.point g.cells = 2 ∨ neighbor_count c.point g.cells = 3) →
        ∀ d ∈ (life g).cells, d.point ≠ c.point)
    ∧ (∀ q : Point, q ∈ mooreNeighbors c.point ↔
        (q ≠ c.point ∧ c.point.x - 1 ≤ q.x ∧ q.x ≤ c.point.x + 1 ∧
         c.point.y - 1 ≤ q.y ∧ q.y ≤ c.point.y + 1)) := by
  refine ⟨?_, ?_, fun q => mem_mooreNeighbors c.point q⟩
  · rw [mem_life]
    constructor
    · rintro (⟨c2, hc2, hs2, heq⟩ | ⟨hage, _, _, _⟩)
      · rw [Cell.mk.injEq] at heq
        have : c2 = c := point_inj g.cells hnd c2 c hc2 hc heq.1.symm
        rw [this] at hs2
        simpa [survives] using hs2
      · exact absurd hage (by simp)
    · intro h
      exact Or.inl ⟨c, hc, by simp [survives, h], rfl⟩
  · intro h d hd hdp
    have hs2 : survives g.cells c.point = false := by
      simp [survives]
      omega
    have hcl := contains_life g hnd c hc
    rw [hs2] at hcl
    have : containsPoint (life g).cells c.point = true :=
      (containsPoint_iff _ _).mpr ⟨d, hd, hdp⟩
    rw [hcl] at this
    exact Bool.false_ne_true this

theorem C1_survival_rule_w :
    ((⟨⟨0, 0⟩, 6⟩ : Cell) ∈ (life blockGen).cells ↔
      (neighbor_count ⟨0, 0⟩ blockGen.cells = 2 ∨
        neighbor_count ⟨0, 0⟩ blockGen.cells = 3))
    ∧ (¬(neighbor_count ⟨0, 0⟩ blockGen.cells = 2 ∨
          neighbor_count ⟨0, 0⟩ blockGen.cells = 3) →
        ∀ d ∈ (life blockGen).cells, d.point ≠ ⟨0, 0⟩)
    ∧ (∀ q : Point, q ∈ mooreNeighbors ⟨0, 0⟩ ↔
        (q ≠ ⟨0, 0⟩ ∧ (0 : Int) - 1 ≤ q.x ∧ q.x ≤ (0 : Int) + 1 ∧
         (0 : Int) - 1 ≤ q.y ∧ q.y ≤ (0 : Int) + 1)) :=
  C1_survival_rule blockGen (by decide) ⟨⟨0, 0⟩, 5⟩ (by decide)

/-- C2: a point `p` that is dead in `g` but Moore-adjacent to a live cell is
present in `life g` with age 0 exactly when it has exactly 3 live neighbors;
the candidate list is deduplicated by point, and a point adjacent to no live
cell never appears in the next generation at all (in particular it is never
born). -/
theorem C2_birth_rule (g : Generation) (p : Point)
    (hdead : containsPoint g.cells p = false)
    (hadj : ∃ c ∈ g.cells, p ∈ mooreNeighbors c.point) :
    ((⟨p, 0⟩ : Cell) ∈ (life g).cells ↔ neighbor_count p g.cells = 3)
    ∧ (collect_empty g.cells).Nodup
    ∧ (∀ q : Point, (∀ c ∈ g.cells, q ∉ mooreNeighbors c.point) →
        containsPoint g.cells q = false →
        ∀ d ∈ (life g).cells, d.point ≠ q) := by
  refine ⟨?_, nodup_collect_empty g.cells, ?_⟩
  · rw [mem_life]
    constructor
    · rintro (⟨c2, _, _, heq⟩ | ⟨_, _, _, hcount⟩)
      · rw [Cell.mk.injEq] at heq
        exact absurd heq.2 (by simp)
      · exact hcount
    · intro h3
      exact Or.inr ⟨rfl, hdead, hadj, h3⟩
  · intro q hq hqdead d hd hdq
    rcases (mem_life g d).mp hd with ⟨c2, hc2, _, rfl⟩ | ⟨_, _, ⟨c2, hc2, hadj2⟩, _⟩
    · simp only at hdq
      have : containsPoint g.cells q = true :=
        (containsPoint_iff _ _).mpr ⟨c2, hc2, hdq⟩
      rw [hqdead] at this
      exact Bool.false_ne_true this
    · rw [hdq] at hadj2
      exact hq c2 hc2 hadj2

theorem C2_birth_rule_w :
    ((⟨⟨1, 1⟩, 0⟩ : Cell) ∈ (life tromGen).cells ↔
      neighbor_count ⟨1, 1⟩ tromGen.cells = 3)
    ∧ (collect_empty tromGen.cells).Nodup
    ∧ (∀ q : Point, (∀ c ∈ tromGen.cells, q ∉ mooreNeighbors c.point) →
        containsPoint tromGen.cells q = false →
        ∀ d ∈ (life tromGen).cells, d.point ≠ q) :=
  C2_birth_rule tromGen ⟨1, 1⟩ (by decide) ⟨⟨⟨0, 0⟩, 1⟩, by decide, by decide⟩

/-- C3: one `life` step increments the tick by 1; the change in the
cumulative `births` counter is the number of cells of the next generation
whose point is not live in `g`, and the change in `deaths` is the number of
cells of `g` whose point is not live in the next generation (both sets are
counted exactly because the next cell list again has no duplicate points);
consequently both counters are monotonically non-decreasing. -/
theorem C3_counters (g : Generation) (hnd : NodupPoints g.cells) :
    (life g).age = g.age + 1
    ∧ (life g).births =
        g.births + (life g).cells.countP (fun c => !containsPoint g.cells c.point)
    ∧ (life g).deaths =
        g.deaths + g.cells.countP (fun c => !containsPoint (life g).cells c.point)
    ∧ NodupPoints (life g).cells
    ∧ g.births ≤ (life g).births
    ∧ g.deaths ≤ (life g).deaths := by
  have hborn : (life g).cells.countP (fun c => !containsPoint g.cells c.point) =
      (bornPoints g.cells).length := by
    rw [life_eq]
    simp only [List.countP_append]
    have h1 : (survivorCells g.cells).countP
        (fun c => !containsPoint g.cells c.point) = 0 := by
      rw [List.countP_eq_zero]
      intro d hd
      rw [survivor_points_sub g.cells d hd]
      simp
    have h2 : ((bornPoints g.cells).map (fun p => (⟨p, 0⟩ : Cell))).countP
        (fun c => !containsPoint g.cells c.point) =
        (bornPoints g.cells).length := by
      rw [← List.length_map (bornPoints g.cells) (fun p => (⟨p, 0⟩ : Cell))]
      rw [List.countP_eq_length]
      intro d hd
      simp only [List.mem_map] at hd
      obtain ⟨p, hp, rfl⟩ := hd
      unfold bornPoints at hp
      rw [List.mem_filter, mem_collect_empty] at hp
      simp [hp.1.1]
    rw [h1, h2]
    simp
  have hdeath : g.cells.countP (fun c => !containsPoint (life g).cells c.point) =
      g.cells.countP (fun c => !survives g.cells c.point) := by
    apply List.countP_congr
    intro c hc
    rw [contains_life g hnd c hc]
  refine ⟨by rw [life_eq], ?_, ?_, nodup_points_life g hnd, ?_, ?_⟩
  · rw [hborn, life_eq]
  · rw [hdeath, life_eq]
  · rw [life_eq]
    exact Nat.le_add_right _ _
  · rw [life_eq]
    exact Nat.le_add_right _ _

theorem C3_counters_w :
    (life blockGen).age = blockGen.age + 1
    ∧ (life blockGen).births = blockGen.births +
        (life blockGen).cells.countP (fun c => !containsPoint blockGen.cells c.point)
    ∧ (life blockGen).deaths = blockGen.deaths +
        blockGen.cells.countP (fun c => !containsPoint (life blockGen).cells c.point)
    ∧ NodupPoints (life blockGen).cells
    ∧ blockGen.births ≤ (life blockGen).births
    ∧ blockGen.deaths ≤ (life blockGen).deaths :=
  C3_counters blockGen (by decide)

theorem histo_fold (m : Nat) (l : List Cell) :
    ∀ (base : List (Nat × Nat)),
      l.foldl (fun h c => histoUpdate h (min c.age m)) base =
        base.map (fun kv => (kv.1, kv.2 + l.countP (fun c => min c.age m == kv.1))) := by
  induction l with
  | nil => intro base; simp
  | cons c l ih =>
      intro base
      rw [List.foldl_cons]
      show (l.foldl (fun h c => histoUpdate h (min c.age m))
        (histoUpdate base (min c.age m))) = _
      rw [ih]
      unfold histoUpdate
      rw [List.map_map]
      apply List.map_congr_left
      intro kv _
      by_cases hk : kv.1 = min c.age m
      · simp [Function.comp, hk, List.countP_cons]
        omega
      · have : (min c.age m == kv.1) = false := by
          simp
          omega
        simp [Function.comp, hk, List.countP_cons, this]

theorem sum_map_range_eq (n : Nat) (f : Nat → Nat) :
    ((List.range n).map f).sum = ∑ a in Finset.range n, f a := by
  induction n with
  | zero => simp
  | succ n ih =>
      rw [List.range_succ, List.map_append, List.sum_append,
        Finset.sum_range_succ, ih]
      simp

theorem sum_countP_buckets (m : Nat) (cells : List Cell) :
    ((List.range (m + 1)).map
      (fun a => cells.countP (fun c => min c.age m == a))).sum = cells.length := by
  rw [sum_map_range_eq]
  induction cells with
  | nil => simp
  | cons c l ih =>
      simp only [List.countP_cons]
      rw [Finset.sum_add_distrib, ih]
      have h1 : ∀ a ∈ Finset.range (m + 1),
          (if (min c.age m == a) = true then 1 else 0) =
            (if a = min c.age m then 1 else 0) := by
        intro a _
        by_cases h : a = min c.age m
        · simp [h]
        · have hb : (min c.age m == a) = false := by
            simp
            omega
          simp [h, hb]
      rw [Finset.sum_congr rfl h1, Finset.sum_ite_eq']
      have hm : min c.age m ∈ Finset.range (m + 1) := by
        simp [Nat.lt_succ_of_le, Nat.min_le_right]
      rw [if_pos hm]
      simp

/-- C4: the histogram has exactly the keys `0..=max_age`, in order, every
bucket present even when zero; the count at bucket `a` is the number of live
cells with `min(age, max_age) = a` (so each cell contributes exactly 1, to
that single bucket); and the bucket counts sum to the number of live cells.
`histo` is a pure function of `g`, so `g` is not mutated. -/
theorem C4_histogram (g : Generation) (m : Nat) :
    histo g m =
      (List.range (m + 1)).map
        (fun a => (a, g.cells.countP (fun c => min c.age m == a)))
    ∧ (histo g m).map Prod.fst = List.range (m + 1)
    ∧ ((histo g m).map Prod.snd).sum = g.cells.length := by
  have h1 : histo g m =
      (List.range (m + 1)).map
        (fun a => (a, g.cells.countP (fun c => min c.age m == a))) := by
    unfold histo
    rw [histo_fold, List.map_map]
    apply List.map_congr_left
    intro a _
    simp
  refine ⟨h1, ?_, ?_⟩
  · rw [h1, List.map_map]
    exact (List.map_congr_left (fun a _ => rfl)).trans (List.map_id _)
  · rw [h1, List.map_map]
    exact sum_countP_buckets m g.cells

theorem hsGet_mem (cells : List Cell) (hnd : NodupPoints cells) (c : Cell)
    (hc : c ∈ cells) (a : Nat) : hsGet cells ⟨c.point, a⟩ = some c := by
  induction cells with
  | nil => cases hc
  | cons d rest ih =>
      have hnd2 : NodupPoints rest := (List.nodup_cons.mp hnd).2
      by_cases hd : cellEq d ⟨c.point, a⟩ = true
      · have hdp : d.point = c.point := by simpa [cellEq] using hd
        rcases List.mem_cons.mp hc with rfl | hcr
        · unfold hsGet
          exact List.find?_cons_of_pos rest hd
        · exfalso
          have : d.point ∉ rest.map Cell.point := (List.nodup_cons.mp hnd).1
          exact this (hdp ▸ List.mem_map_of_mem Cell.point hcr)
      · have hdp : d.point ≠ c.point := fun he => hd (by simp [cellEq, he])
        rcases List.mem_cons.mp hc with rfl | hcr
        · exact absurd rfl hdp
        · unfold hsGet
          have step : List.find? (fun c2 => cellEq c2 (⟨c.point, a⟩ : Cell)) (d :: rest) =
              List.find? (fun c2 => cellEq c2 (⟨c.point, a⟩ : Cell)) rest :=
            List.find?_cons_of_neg rest hd
          rw [step]
          exact ih hnd2 hcr

theorem hsGet_none (cells : List Cell) (probe : Cell)
    (h : ∀ c ∈ cells, c.point ≠ probe.point) : hsGet cells probe = none := by
  unfold hsGet
  rw [List.find?_eq_none]
  intro c hc
  simp [cellEq]
  exact h c hc

/-- C5: the render looks up the simulation point
`(sx - offset.x, sy - offset.y)` for screen position `(sx, sy)`; when a live
cell sits at that point, the glyph is the decimal representation of its age
for ages below 10 and the overflow glyph `"+"` otherwise; when no live cell
sits there, no cell glyph is produced. -/
theorem C5_viewport (g : Generation) (hnd : NodupPoints g.cells) (o : Point)
    (sx sy : Nat) :
    (∀ c ∈ g.cells, c.point = ⟨(sx : Int) - o.x, (sy : Int) - o.y⟩ →
        show_cell_at g o sx sy =
          some (if c.age < 10 then toString c.age else "+"))
    ∧ ((∀ c ∈ g.cells, c.point ≠ ⟨(sx : Int) - o.x, (sy : Int) - o.y⟩) →
        show_cell_at g o sx sy = none) := by
  constructor
  · intro c hc hcp
    unfold show_cell_at
    have hg : hsGet g.cells ⟨⟨(sx : Int) - o.x, (sy : Int) - o.y⟩, 0⟩ = some c := by
      rw [← hcp]
      exact hsGet_mem g.cells hnd c hc 0
    rw [hg]
    rfl
  · intro h
    unfold show_cell_at
    rw [hsGet_none _ _ h]

theorem C5_viewport_w :
    show_cell_at blockGen ⟨1, 1⟩ 1 1 =
      some (if (5 : Nat) < 10 then toString (5 : Nat) else "+") :=
  (C5_viewport blockGen (by decide) ⟨1, 1⟩ 1 1).1 ⟨⟨0, 0⟩, 5⟩ (by decide) (by decide)

/-- C6: two cells are equal (under the code's `PartialEq`) exactly when their
points are equal; point-equal cells hash identically for every point-hash
function, whatever their ages; hence a cell set can be probed by position
alone (with an age-0 probe) and yields the stored cell with its actual age. -/
theorem C6_cell_identity :
    (∀ a b : Cell, cellEq a b = true ↔ a.point = b.point)
    ∧ (∀ (h : Point → Nat) (a b : Cell), cellEq a b = true →
        cellHash h a = cellHash h b)
    ∧ (∀ (cells : List Cell), NodupPoints cells →
        ∀ c ∈ cells, hsGet cells ⟨c.point, 0⟩ = some c) := by
  refine ⟨?_, ?_, ?_⟩
  · intro a b
    simp [cellEq]
  · intro h a b hab
    unfold cellHash
    rw [show a.point = b.point by simpa [cellEq] using hab]
  · intro cells hnd c hc
    exact hsGet_mem cells hnd c hc 0

theorem C6_cell_identity_w :
    (cellEq ⟨⟨1, 2⟩, 7⟩ ⟨⟨1, 2⟩, 0⟩ = true)
    ∧ hsGet [⟨⟨1, 2⟩, 7⟩] ⟨⟨1, 2⟩, 0⟩ = some ⟨⟨1, 2⟩, 7⟩ :=
  ⟨(C6_cell_identity.1 ⟨⟨1, 2⟩, 7⟩ ⟨⟨1, 2⟩, 0⟩).mpr rfl,
   C6_cell_identity.2.2 [⟨⟨1, 2⟩, 7⟩] (by decide) ⟨⟨1, 2⟩, 7⟩ (by decide)⟩

/-- C7: dispatching a left-button drag while an anchor is set adds the delta
between the pointer position and the anchor to the viewport offset and moves
the anchor to the pointer position; the generation, the play/pause flag, the
histogram flag, the quit flag and the advance flag are unchanged. -/
theorem C7_drag_update (s : Session) (a : Point) (h : s.drag_anchor = some a)
    (x y : Nat) :
    handle_event s (.mouseDrag .left x y) =
      some { s with
        offset := ⟨s.offset.x + ((x : Int) - a.x), s.offset.y + ((y : Int) - a.y)⟩,
        drag_anchor := some ⟨(x : Int), (y : Int)⟩ }
    ∧ (∀ s2, handle_event s (.mouseDrag .left x y) = some s2 →
        s2.gen = s.gen ∧ s2.auto_next = s.auto_next ∧
        s2.show_histo_enabled = s.show_histo_enabled ∧ s2.quit = s.quit ∧
        s2.next = s.next) := by
  have h1 : handle_event s (.mouseDrag .left x y) =
      some { s with
        offset := ⟨s.offset.x + ((x : Int) - a.x), s.offset.y + ((y : Int) - a.y)⟩,
        drag_anchor := some ⟨(x : Int), (y : Int)⟩ } := by
    simp [handle_event, h]
  refine ⟨h1, ?_⟩
  intro s2 h2
  rw [h1, Option.some_inj] at h2
  rw [← h2]
  exact ⟨rfl, rfl, rfl, rfl, rfl⟩

theorem C7_drag_update_w :
    handle_event dragSession (.mouseDrag .left 5 7) =
      some { dragSession with offset := ⟨4, 5⟩, drag_anchor := some ⟨5, 7⟩ } := by
  have h := (C7_drag_update dragSession ⟨1, 2⟩ rfl 5 7).1
  rw [h]
  decide

/-- C10: dispatching a left-button drag while no anchor is set reaches the
`unwrap` of the absent anchor, modelled as the `none` outcome of
`handle_event` (the panic branch), rather than any no-op state. -/
theorem C10_drag_no_anchor (s : Session) (h : s.drag_anchor = none)
    (x y : Nat) : handle_event s (.mouseDrag .left x y) = none := by
  simp [handle_event, h]

theorem C10_drag_no_anchor_w :
    handle_event noAnchorSession (.mouseDrag .left 5 7) = none :=
  C10_drag_no_anchor noAnchorSession rfl 5 7

theorem le_foldl_max (t : List Nat) : ∀ b : Nat, b ≤ t.foldl max b := by
  induction t with
  | nil => intro b; exact Nat.le_refl b
  | cons c t ih =>
      intro b
      exact Nat.le_trans (Nat.le_max_left b c) (ih (max b c))

theorem mem_le_foldl_max (t : List Nat) :
    ∀ (b a : Nat), a ∈ t → a ≤ t.foldl max b := by
  induction t with
  | nil => intro b a ha; cases ha
  | cons c t ih =>
      intro b a ha
      rcases List.mem_cons.mp ha with rfl | ha2
      · exact Nat.le_trans (Nat.le_max_right b a) (le_foldl_max t (max b a))
      · exact ih (max b c) a ha2

theorem mem_le_max_getD (l : List Nat) (a : Nat) (ha : a ∈ l) (d : Nat) :
    a ≤ (l.max?).getD d := by
  cases l with
  | nil => cases ha
  | cons b t =>
      show a ≤ (some (t.foldl max b)).getD d
      rcases List.mem_cons.mp ha with rfl | ha2
      · exact le_foldl_max t a
      · exact mem_le_foldl_max t b a ha2

/-- Amended C8: the bar length of a histogram row is the TRUNCATION (floor),
not the rounding, of `count * min(1, 25 / max_bucket_count)`: the `as usize`
cast truncates toward zero. Equivalently, the drawn length is `count` itself
when the largest bucket count is at most 25, and `25 * count / max_count` in
integer division otherwise. -/
theorem C8_bar_length (h : List (Nat × Nat)) (e : Nat × Nat × Nat)
    (he : e ∈ show_histo_bars h) :
    e.2.2 = if show_histo_max_count h ≤ 25 then e.2.1
            else 25 * e.2.1 / show_histo_max_count h := by
  obtain ⟨kv, hkv, rfl⟩ := List.mem_map.mp he
  have hcount : kv.2 ≤ show_histo_max_count h := by
    unfold show_histo_max_count
    exact mem_le_max_getD _ _ (List.mem_map_of_mem Prod.snd hkv) 1
  show show_histo_bar_len kv.2 (show_histo_max_count h) = _
  by_cases hmc : show_histo_max_count h ≤ 25
  · rw [if_pos hmc]
    rcases Nat.eq_zero_or_pos (show_histo_max_count h) with h0 | hpos
    · have h00 : kv.2 = 0 := by omega
      rw [h00]
      unfold show_histo_bar_len
      simp
    · unfold show_histo_bar_len
      have hq : (0 : ℚ) < (show_histo_max_count h : ℚ) := by exact_mod_cast hpos
      have h1 : (1 : ℚ) ≤ 25 / (show_histo_max_count h : ℚ) := by
        rw [one_le_div hq]
        exact_mod_cast hmc
      rw [min_eq_left h1, mul_one]
      exact Nat.floor_natCast kv.2
  · rw [if_neg hmc]
    unfold show_histo_bar_len
    have hq : (0 : ℚ) < (show_histo_max_count h : ℚ) := by
      have : 0 < show_histo_max_count h := by omega
      exact_mod_cast this
    have h1 : (25 : ℚ) / (show_histo_max_count h : ℚ) ≤ 1 := by
      rw [div_le_one hq]
      exact_mod_cast (by omega : 25 ≤ show_histo_max_count h)
    rw [min_eq_right h1]
    have hcast : (kv.2 : ℚ) * (25 / (show_histo_max_count h : ℚ)) =
        ((25 * kv.2 : Nat) : ℚ) / (show_histo_max_count h : ℚ) := by
      push_cast
      ring
    rw [hcast, Nat.floor_div_nat, Nat.floor_natCast]

theorem half_eval : ((1 : Nat) : ℚ) * min 1 (25 / ((50 : Nat) : ℚ)) = 1 / 2 := by
  rw [min_eq_right (by norm_num : (25 : ℚ) / ((50 : Nat) : ℚ) ≤ 1)]
  push_cast
  norm_num

theorem bar_len_1_50 : show_histo_bar_len 1 50 = 0 := by
  unfold show_histo_bar_len
  rw [half_eval]
  exact Nat.floor_eq_zero.mpr (by norm_num)

theorem bar_len_50_50 : show_histo_bar_len 50 50 = 25 := by
  unfold show_histo_bar_len
  have h1 : ((50 : Nat) : ℚ) * min 1 (25 / ((50 : Nat) : ℚ)) = ((25 : Nat) : ℚ) := by
    rw [min_eq_right (by norm_num : (25 : ℚ) / ((50 : Nat) : ℚ) ≤ 1)]
    push_cast
    norm_num
  rw [h1]
  exact Nat.floor_natCast 25

theorem claimed_1_50 : claimed_bar_len 1 50 = 1 := by
  unfold claimed_bar_len
  have hm : (max 50 1 : Nat) = 50 := by norm_num
  rw [hm, half_eval, round_eq]
  norm_num

theorem bars_concrete :
    show_histo_bars [(0, 1), (1, 50)] = [(0, 1, 0), (1, 50, 25)] := by
  have hmax : show_histo_max_count [(0, 1), (1, 50)] = 50 := by decide
  unfold show_histo_bars
  rw [hmax]
  simp [bar_len_1_50, bar_len_50_50]

theorem C8_bar_length_w :
    (((0, 1, 0) : Nat × Nat × Nat) ∈ show_histo_bars [(0, 1), (1, 50)])
    ∧ ((0, 1, 0) : Nat × Nat × Nat).2.2 =
        (if show_histo_max_count [(0, 1), (1, 50)] ≤ 25 then
          ((0, 1, 0) : Nat × Nat × Nat).2.1
        else 25 * ((0, 1, 0) : Nat × Nat × Nat).2.1 /
          show_histo_max_count [(0, 1), (1, 50)]) :=
  ⟨by rw [bars_concrete]; decide,
   C8_bar_length [(0, 1), (1, 50)] (0, 1, 0) (by rw [bars_concrete]; decide)⟩

/-- Counterexample to C8 as stated: with buckets `[(0,1),(1,50)]` the largest
count is 50, and the row with count 1 is drawn with bar length
`(1 * 25/50) as usize = 0`, whereas the claimed formula
`round(1 * min(1, 25/50)) = round(1/2)` gives 1. All intermediate `f64`
values here (`0.5`) are exactly representable, so the rational model agrees
with the floating-point computation at this input. -/
theorem C8_round_counterexample :
    show_histo_bars [(0, 1), (1, 50)] = [(0, 1, 0), (1, 50, 25)]
    ∧ claimed_bar_len 1 50 = 1
    ∧ show_histo_bar_len 1 50 = 0 :=
  ⟨bars_concrete, claimed_1_50, bar_len_1_50⟩

theorem any_map_gen {α β : Type} (f : α → β) (p : β → Bool) (l : List α) :
    (l.map f).any p = l.any (fun a => p (f a)) := by
  induction l with
  | nil => rfl
  | cons a l ih => simp [ih]

theorem any_congr_gen {α : Type} (p q : α → Bool) (l : List α)
    (h : ∀ a ∈ l, p a = q a) : l.any p = l.any q := by
  induction l with
  | nil => rfl
  | cons a l ih =>
      rw [List.any_cons, List.any_cons, h a (List.mem_cons_self a l),
        ih (fun b hb => h b (List.mem_cons_of_mem a hb))]

theorem containsPoint_eq_pmem (cells : List Cell) (p : Point) :
    containsPoint cells p = pmem (cells.map Cell.point) p := by
  unfold containsPoint hsContains pmem cellEq
  rw [any_map_gen]

theorem neighbor_count_eq_cntPts (cells : List Cell) (p : Point) :
    neighbor_count p cells = cntPts (cells.map Cell.point) p := by
  rw [neighbor_count_eq_countP]
  unfold cntPts
  apply List.countP_congr
  intro q _
  rw [containsPoint_eq_pmem]

theorem foldl_congr_fun {α β : Type} (f g : α → β → α) (l : List β)
    (h : ∀ b a, f b a = g b a) : ∀ (init : α), l.foldl f init = l.foldl g init := by
  induction l with
  | nil => intro init; rfl
  | cons b l ih =>
      intro init
      rw [List.foldl_cons, List.foldl_cons, h init b]
      exact ih _

theorem collect_empty_eq_collectPts (cells : List Cell) :
    collect_empty cells = collectPts (cells.map Cell.point) := by
  unfold collect_empty collectPts emptyNbrs
  rw [List.foldl_map]
  apply foldl_congr_fun
  intro acc c
  congr 1
  apply List.filter_congr
  intro q _
  rw [containsPoint_eq_pmem]

theorem life_pts (g : Generation) :
    (life g).cells.map Cell.point = nextPts (g.cells.map Cell.point) := by
  rw [life_eq]
  show (survivorCells g.cells ++ _).map Cell.point = _
  rw [List.map_append, map_point_survivors, map_point_born]
  unfold nextPts
  congr 1
  · rw [show (g.cells.filter (fun c => survives g.cells c.point)) =
        (g.cells.filter (fun c =>
          (cntPts (g.cells.map Cell.point) c.point == 2 ||
           cntPts (g.cells.map Cell.point) c.point == 3))) from
      List.filter_congr (fun c _ => by
        unfold survives
        rw [neighbor_count_eq_cntPts])]
    rw [List.filter_map]
    rfl
  · unfold bornPoints
    rw [collect_empty_eq_collectPts]
    apply List.filter_congr
    intro q _
    rw [neighbor_count_eq_cntPts]

theorem ptr_inj (v p q : Point) : ptr v p = ptr v q ↔ p = q := by
  obtain ⟨px, py⟩ := p
  obtain ⟨qx, qy⟩ := q
  simp [ptr, Point.mk.injEq]

theorem moore_ptr (v p : Point) :
    mooreNeighbors (ptr v p) = (mooreNeighbors p).map (ptr v) := by
  simp [mooreNeighbors, ptr, Point.mk.injEq]
  omega

theorem pmem_ptr (v : Point) (ps : List Point) (p : Point) :
    pmem (ps.map (ptr v)) (ptr v p) = pmem ps p := by
  unfold pmem
  rw [any_map_gen]
  apply any_congr_gen
  intro q _
  simp [ptr_inj]

theorem cntPts_ptr (v : Point) (ps : List Point) (p : Point) :
    cntPts (ps.map (ptr v)) (ptr v p) = cntPts ps p := by
  unfold cntPts
  rw [moore_ptr, List.countP_map]
  apply List.countP_congr
  intro q _
  show pmem (ps.map (ptr v)) (ptr v q) = true ↔ pmem ps q = true
  rw [pmem_ptr]

theorem insertPoint_ptr (v : Point) (ps : List Point) (p : Point) :
    insertPoint (ps.map (ptr v)) (ptr v p) = (insertPoint ps p).map (ptr v) := by
  unfold insertPoint
  rw [pmem_ptr]
  by_cases h : pmem ps p = true
  · rw [if_pos h, if_pos h]
  · rw [if_neg h, if_neg h, List.map_append]
    rfl

theorem foldl_insertPoint_ptr (v : Point) (l : List Point) :
    ∀ (acc : List Point),
      (l.map (ptr v)).foldl insertPoint (acc.map (ptr v)) =
        (l.foldl insertPoint acc).map (ptr v) := by
  induction l with
  | nil => intro acc; rfl
  | cons p l ih =>
      intro acc
      rw [List.map_cons, List.foldl_cons, List.foldl_cons, insertPoint_ptr]
      exact ih _

theorem collectPts_ptr (v : Point) (ps : List Point) :
    collectPts (ps.map (ptr v)) = (collectPts ps).map (ptr v) := by
  have inner : ∀ p : Point,
      (mooreNeighbors (ptr v p)).filter (fun q => !pmem (ps.map (ptr v)) q) =
        ((mooreNeighbors p).filter (fun q => !pmem ps q)).map (ptr v) := by
    intro p
    rw [moore_ptr, List.filter_map]
    congr 1
    apply List.filter_congr
    intro q _
    show (!pmem (ps.map (ptr v)) (ptr v q)) = (!pmem ps q)
    rw [pmem_ptr]
  have main : ∀ (l : List Point) (acc : List Point),
      (l.map (ptr v)).foldl
        (fun acc p =>
          ((mooreNeighbors p).filter (fun q => !pmem (ps.map (ptr v)) q)).foldl
            insertPoint acc)
        (acc.map (ptr v)) =
      (l.foldl
        (fun acc p =>
          ((mooreNeighbors p).filter (fun q => !pmem ps q)).foldl insertPoint acc)
        acc).map (ptr v) := by
    intro l
    induction l with
    | nil => intro acc; rfl
    | cons p l ih =>
        intro acc
        rw [List.map_cons, List.foldl_cons, List.foldl_cons, inner,
          foldl_insertPoint_ptr]
        exact ih _
  show (ps.map (ptr v)).foldl _ (([] : List Point).map (ptr v)) = _
  exact main ps []

theorem nextPts_ptr (v : Point) (ps : List Point) :
    nextPts (ps.map (ptr v)) = (nextPts ps).map (ptr v) := by
  unfold nextPts
  rw [List.map_append]
  congr 1
  · rw [List.filter_map]
    congr 1
    apply List.filter_congr
    intro p _
    show (cntPts (ps.map (ptr v)) (ptr v p) == 2 ||
      cntPts (ps.map (ptr v)) (ptr v p) == 3) = _
    rw [cntPts_ptr]
  · rw [collectPts_ptr, List.filter_map]
    congr 1
    apply List.filter_congr
    intro p _
    show (cntPts (ps.map (ptr v)) (ptr v p) == 3) = (cntPts ps p == 3)
    rw [cntPts_ptr]

theorem PtAlive_iff_pmem (g : Generation) (p : Point) :
    PtAlive g p ↔ pmem (g.cells.map Cell.point) p = true := by
  rw [pmem_iff]
  unfold PtAlive
  rw [List.mem_map]

theorem life2_pmem (g : Generation) (v : Point) (base : List Point)
    (hb : g.cells.map Cell.point = base.map (ptr v)) (p2 : Point) :
    (PtAlive g (ptr v p2) ↔ pmem base p2 = true)
    ∧ (PtAlive (life g) (ptr v p2) ↔ pmem (nextPts base) p2 = true)
    ∧ (PtAlive (life (life g)) (ptr v p2) ↔
        pmem (nextPts (nextPts base)) p2 = true) := by
  refine ⟨?_, ?_, ?_⟩
  · rw [PtAlive_iff_pmem, hb, pmem_ptr]
  · rw [PtAlive_iff_pmem, life_pts, hb, nextPts_ptr, pmem_ptr]
  · rw [PtAlive_iff_pmem, life_pts, life_pts, hb, nextPts_ptr, nextPts_ptr,
      pmem_ptr]

/-- Amended C9: a 3-cell blinker made of three CONSECUTIVE collinear live
cells, horizontal or vertical, at any position and with any ages and
counters, has the same set of live points again after exactly 2 `life`
steps; after a single step the point set differs, so the period is exactly
2, at the same coordinates. -/
theorem C9_blinker (g : Generation) (a b : Int) (g1 g2 g3 : Nat)
    (hcells : g.cells = [⟨⟨a - 1, b⟩, g1⟩, ⟨⟨a, b⟩, g2⟩, ⟨⟨a + 1, b⟩, g3⟩] ∨
              g.cells = [⟨⟨a, b - 1⟩, g1⟩, ⟨⟨a, b⟩, g2⟩, ⟨⟨a, b + 1⟩, g3⟩]) :
    (∀ p : Point, PtAlive (life (life g)) p ↔ PtAlive g p)
    ∧ (∃ q : Point, PtAlive (life g) q ∧ ¬PtAlive g q) := by
  rcases hcells with h | h
  · have hb : g.cells.map Cell.point =
        [⟨-1, 0⟩, ⟨0, 0⟩, ⟨1, 0⟩].map (ptr ⟨a, b⟩) := by
      rw [h]
      simp [ptr, Point.mk.injEq]
      omega
    constructor
    · intro p
      obtain ⟨px, py⟩ := p
      have hp : (⟨px, py⟩ : Point) = ptr ⟨a, b⟩ ⟨px - a, py - b⟩ := by
        simp [ptr, Point.mk.injEq]
      rw [hp]
      have h3 := life2_pmem g ⟨a, b⟩ [⟨-1, 0⟩, ⟨0, 0⟩, ⟨1, 0⟩] hb ⟨px - a, py - b⟩
      rw [h3.2.2, h3.1]
      rw [show nextPts (nextPts [⟨-1, 0⟩, ⟨0, 0⟩, ⟨1, 0⟩]) =
          [⟨0, 0⟩, ⟨1, 0⟩, ⟨-1, 0⟩] from by rfl]
      simp only [pmem, List.any_cons, List.any_nil, Bool.or_eq_true,
        Bool.or_false, decide_eq_true_eq]
      constructor
      · rintro (h1 | h1 | h1)
        · exact Or.inr (Or.inl h1)
        · exact Or.inr (Or.inr h1)
        · exact Or.inl h1
      · rintro (h1 | h1 | h1)
        · exact Or.inr (Or.inr h1)
        · exact Or.inl h1
        · exact Or.inr (Or.inl h1)
    · refine ⟨ptr ⟨a, b⟩ ⟨0, -1⟩, ?_, ?_⟩
      · rw [(life2_pmem g ⟨a, b⟩ [⟨-1, 0⟩, ⟨0, 0⟩, ⟨1, 0⟩] hb ⟨0, -1⟩).2.1]
        rfl
      · rw [(life2_pmem g ⟨a, b⟩ [⟨-1, 0⟩, ⟨0, 0⟩, ⟨1, 0⟩] hb ⟨0, -1⟩).1]
        exact fun hfalse => Bool.false_ne_true hfalse
  · have hb : g.cells.map Cell.point =
        [⟨0, -1⟩, ⟨0, 0⟩, ⟨0, 1⟩].map (ptr ⟨a, b⟩) := by
      rw [h]
      simp [ptr, Point.mk.injEq]
      omega
    constructor
    · intro p
      obtain ⟨px, py⟩ := p
      have hp : (⟨px, py⟩ : Point) = ptr ⟨a, b⟩ ⟨px - a, py - b⟩ := by
        simp [ptr, Point.mk.injEq]
      rw [hp]
      have h3 := life2_pmem g ⟨a, b⟩ [⟨0, -1⟩, ⟨0, 0⟩, ⟨0, 1⟩] hb ⟨px - a, py - b⟩
      rw [h3.2.2, h3.1]
      rw [show nextPts (nextPts [⟨0, -1⟩, ⟨0, 0⟩, ⟨0, 1⟩]) =
          [⟨0, 0⟩, ⟨0, -1⟩, ⟨0, 1⟩] from by rfl]
      simp only [pmem, List.any_cons, List.any_nil, Bool.or_eq_true,
        Bool.or_false, decide_eq_true_eq]
      constructor
      · rintro (h1 | h1 | h1)
        · exact Or.inr (Or.inl h1)
        · exact Or.inl h1
        · exact Or.inr (Or.inr h1)
      · rintro (h1 | h1 | h1)
        · exact Or.inr (Or.inl h1)
        · exact Or.inl h1
        · exact Or.inr (Or.inr h1)
    · refine ⟨ptr ⟨a, b⟩ ⟨-1, 0⟩, ?_, ?_⟩
      · rw [(life2_pmem g ⟨a, b⟩ [⟨0, -1⟩, ⟨0, 0⟩, ⟨0, 1⟩] hb ⟨-1, 0⟩).2.1]
        rfl
      · rw [(life2_pmem g ⟨a, b⟩ [⟨0, -1⟩, ⟨0, 0⟩, ⟨0, 1⟩] hb ⟨-1, 0⟩).1]
        exact fun hfalse => Bool.false_ne_true hfalse

theorem C9_blinker_w :
    (∀ p : Point, PtAlive (life (life blinkGen)) p ↔ PtAlive blinkGen p)
    ∧ (∃ q : Point, PtAlive (life blinkGen) q ∧ ¬PtAlive blinkGen q) :=
  C9_blinker blinkGen 0 0 4 7 9 (Or.inl (by rfl))

/-- Counterexample to C9 as stated: the generation with live cells at
`(0,0)`, `(2,0)` and `(4,0)` has a 3-cell collinear live set, yet two `life`
steps yield the empty cell set, not the original points: every cell has 0
live neighbors and dies, and no candidate reaches 3 neighbors. -/
theorem C9_collinear_counterexample :
    (life (life spreadGen)).cells = [] ∧ PtAlive spreadGen ⟨0, 0⟩ ∧
      ¬PtAlive (life (life spreadGen)) ⟨0, 0⟩ := by
  refine ⟨by rfl, ⟨⟨⟨0, 0⟩, 0⟩, by simp [spreadGen], rfl⟩, ?_⟩
  rintro ⟨c, hc, _⟩
  rw [show (life (life spreadGen)).cells = [] from by rfl] at hc
  cases hc

end Rustlife
